import Mathlib

/-!
Verification of `src/index.ts` of compiling-to-assembly-from-scratch:
a toy compiler from a C-like language to 32-bit ARM assembly text.

The development shallowly embeds the two subsystems of the source file:

* the AST classes and their `emit` methods (Chapter 4 of the source),
  as an inductive type `AST` and a function `emitAST` producing the
  emitted assembly lines, threading the mutable `Environment` and the
  process-wide `Label` counter explicitly, and modelling thrown
  `Error(...)` values as `Except.error` of the message string;
* the parser combinator library and the grammar (Chapters 5 and 6),
  as a `Parser` structure over a `Source` cursor, with each sticky
  regex of the source translated into an explicit matcher function.

JS `Map` values are modelled as association lists where `Map.set` conses
a new binding in front (for `Map.get` this is observationally the same as
overwriting, and the map is never iterated in the source).
-/

/-! ## AST (the Chapter 4 node classes)

One constructor per class of the source file.  The `Assert` class is built
by the parser as `new Assert(args[0])`, where `args[0]` is JS `undefined`
when the argument list is empty; the constructor therefore carries an
`Option AST`, `none` standing for that `undefined` value. -/

inductive AST where
  | number (value : Int)
  | id (value : String)
  | not (term : AST)
  | equal (left : AST) (right : AST)
  | notEqual (left : AST) (right : AST)
  | add (left : AST) (right : AST)
  | subtract (left : AST) (right : AST)
  | multiply (left : AST) (right : AST)
  | divide (left : AST) (right : AST)
  | call (callee : String) (args : List AST)
  | ret (term : AST)
  | block (statements : List AST)
  | ifNode (conditional : AST) (consequence : AST) (alternative : AST)
  | function (name : String) (parameters : List String) (body : AST)
  | var (name : String) (value : AST)
  | assign (name : String) (value : AST)
  | whileNode (conditional : AST) (body : AST)
  | main (statements : List AST)
  | assert (condition : Option AST)

/-- `class Environment { locals: Map<string, number>; nextLocalOffset: number }`. -/
structure Environment where
  locals : List (String × Int)
  nextLocalOffset : Int

/-- `env.locals.set(k, v)`: for lookup purposes, JS `Map.set` is consing the
new binding in front (the newest binding shadows older ones). -/
def mapSet (m : List (String × Int)) (k : String) (v : Int) : List (String × Int) :=
  (k, v) :: m

/-- `Function.setUpEnvironment`: `parameters.forEach((p, i) => locals.set(p, 4 * i - 16))`. -/
def bindParams : List String → Nat → List (String × Int) → List (String × Int)
  | [], _, m => m
  | p :: ps, i, m => bindParams ps (i + 1) (mapSet m p (4 * (i : Int) - 16))

/-- `new Environment(locals, -20)` built by `Function.setUpEnvironment`. -/
def setUpEnvironment (parameters : List String) : Environment :=
  ⟨bindParams parameters 0 [], -20⟩

/-- The single-quote character, used by `Assert.emit` (`#'.'` and `#'F'`). -/
def squote : String :=
  String.mk [Char.ofNat 39]

/-- Result of emission: the emitted lines, the environment after the node
(mutated by `Var.emit`), and the next `Label` counter value. -/
abbrev EmitM := Except String (List String × Environment × Nat)

mutual

/-- `AST.emit(env)` for every node class, with the emitted lines collected in
order, the label counter threaded (`If`/`While` allocate their two labels
before emitting the condition), and `throw Error(msg)` modelled as
`.error msg`.  `Id.emit` and `Assign.emit` reproduce the source's falsy test
`if (offset)`: a present binding with offset `0` is treated like an absent
one.  `Assert.emit` on a `none` condition models the JS `TypeError` raised by
`undefined.emit(env)`. -/
def emitAST : AST → Environment → Nat → EmitM
  | .number v, env, c => .ok (["  ldr r0, =" ++ toString v], env, c)
  | .id x, env, c =>
    match List.lookup x env.locals with
    | some off =>
      if off = 0 then .error ("Undefined variable: " ++ x)
      else .ok ([" ldr r0, [fp, #" ++ toString off ++ "]"], env, c)
    | none => .error ("Undefined variable: " ++ x)
  | .not t, env, c =>
    match emitAST t env c with
    | .error m => .error m
    | .ok (ls, e1, c1) =>
      .ok (ls ++ [" cmp r0, #0", " moveq r0, #1", " movne r0, #0"], e1, c1)
  | .equal l r, env, c =>
    match emitAST l env c with
    | .error m => .error m
    | .ok (ll, e1, c1) =>
      match emitAST r e1 c1 with
      | .error m => .error m
      | .ok (rl, e2, c2) =>
        .ok (ll ++ ["  push {r0, ip}"] ++ rl ++
             ["  pop {r1, ip}", "  cmp r0, r1", "  moveq r0, #1", "  movne r0, #0"], e2, c2)
  | .notEqual l r, env, c =>
    match emitAST l env c with
    | .error m => .error m
    | .ok (ll, e1, c1) =>
      match emitAST r e1 c1 with
      | .error m => .error m
      | .ok (rl, e2, c2) =>
        .ok (ll ++ ["  push {r0, ip}"] ++ rl ++
             ["  pop {r1, ip}", "  cmp r0, r1", "  movne r0, #1", "  moveq r0, #0"], e2, c2)
  | .add l r, env, c =>
    match emitAST l env c with
    | .error m => .error m
    | .ok (ll, e1, c1) =>
      match emitAST r e1 c1 with
      | .error m => .error m
      | .ok (rl, e2, c2) =>
        .ok (ll ++ ["push {r0, ip}"] ++ rl ++ ["pop {r1, ip}", "add r0, r0, r1"], e2, c2)
  | .subtract l r, env, c =>
    match emitAST l env c with
    | .error m => .error m
    | .ok (ll, e1, c1) =>
      match emitAST r e1 c1 with
      | .error m => .error m
      | .ok (rl, e2, c2) =>
        .ok (ll ++ ["  push {r0, ip}"] ++ rl ++ ["  pop {r1, ip}", "  sub r0, r1, r0"], e2, c2)
  | .multiply l r, env, c =>
    match emitAST l env c with
    | .error m => .error m
    | .ok (ll, e1, c1) =>
      match emitAST r e1 c1 with
      | .error m => .error m
      | .ok (rl, e2, c2) =>
        .ok (ll ++ ["  push {r0, ip}"] ++ rl ++ ["  pop {r1, ip}", "  mul r0, r1, r0"], e2, c2)
  | .divide l r, env, c =>
    match emitAST l env c with
    | .error m => .error m
    | .ok (ll, e1, c1) =>
      match emitAST r e1 c1 with
      | .error m => .error m
      | .ok (rl, e2, c2) =>
        .ok (ll ++ ["  push {r0, ip}"] ++ rl ++ ["  pop {r1, ip}", "  udiv r0, r1, r0"], e2, c2)
  | .call f [], env, c => .ok ([" bl " ++ f], env, c)
  | .call f [a], env, c =>
    match emitAST a env c with
    | .error m => .error m
    | .ok (ls, e1, c1) => .ok (ls ++ [" bl " ++ f], e1, c1)
  | .call f (a :: b :: rest), env, c =>
    if (a :: b :: rest).length ≤ 4 then
      match emitArgs (a :: b :: rest) 0 env c with
      | .error m => .error m
      | .ok (ls, e1, c1) =>
        .ok ([" sub sp, sp, #16"] ++ ls ++ [" pop {r0, r1, r2, r3}", " bl " ++ f], e1, c1)
    else .error ("More than 4 arguments are not supported")
  | .ret t, env, c =>
    match emitAST t env c with
    | .error m => .error m
    | .ok (ls, e1, c1) => .ok (ls ++ [" mov sp, fp", " pop {fp, pc}"], e1, c1)
  | .block stmts, env, c => emitSeq stmts env c
  | .ifNode cond cons alt, env, c =>
    match emitAST cond env (c + 2) with
    | .error m => .error m
    | .ok (cl, e1, c1) =>
      match emitAST cons e1 c1 with
      | .error m => .error m
      | .ok (tl, e2, c2) =>
        match emitAST alt e2 c2 with
        | .error m => .error m
        | .ok (al, e3, c3) =>
          .ok (cl ++ [" cmp r0, #0", " beq .L" ++ toString c] ++ tl ++
               [" b .L" ++ toString (c + 1), ".L" ++ toString c ++ ":"] ++ al ++
               [".L" ++ toString (c + 1) ++ ":"], e3, c3)
  | .function name params body, env, c =>
    if params.length > 4 then .error ("More than 4 params is not supported")
    else
      match emitAST body (setUpEnvironment params) c with
      | .error m => .error m
      | .ok (ls, _, c1) =>
        .ok (["", ".global " ++ name, name ++ ":",
              " push {fp, lr}", " mov fp, sp", " push {r0, r1, r2, r3}"] ++ ls ++
             [" mov sp, fp", " mov r0, #0", " pop {fp, pc}"], env, c1)
  | .var name value, env, c =>
    match emitAST value env c with
    | .error m => .error m
    | .ok (ls, e1, c1) =>
      .ok (ls ++ [" push {r0, ip}"],
           ⟨mapSet e1.locals name (e1.nextLocalOffset - 4), e1.nextLocalOffset - 8⟩, c1)
  | .assign name value, env, c =>
    match emitAST value env c with
    | .error m => .error m
    | .ok (ls, e1, c1) =>
      match List.lookup name e1.locals with
      | some off =>
        if off = 0 then .error ("Undefined variable: " ++ name)
        else .ok (ls ++ [" str r0, [fp, #" ++ toString off ++ "]"], e1, c1)
      | none => .error ("Undefined variable: " ++ name)
  | .whileNode cond body, env, c =>
    match emitAST cond env (c + 2) with
    | .error m => .error m
    | .ok (cl, e1, c1) =>
      match emitAST body e1 c1 with
      | .error m => .error m
      | .ok (bl, e2, c2) =>
        .ok ([".L" ++ toString c ++ ":"] ++ cl ++
             [" cmp r0, #0", " beq .L" ++ toString (c + 1)] ++ bl ++
             [" b .L" ++ toString c, ".L" ++ toString (c + 1) ++ ":"], e2, c2)
  | .main stmts, env, c =>
    match emitSeq stmts env c with
    | .error m => .error m
    | .ok (ls, e1, c1) =>
      .ok ([".global main", "main:", " push {fp, lr}"] ++ ls ++
           [" mov r0, #0", " pop {fp, pc}"], e1, c1)
  | .assert (some t), env, c =>
    match emitAST t env c with
    | .error m => .error m
    | .ok (ls, e1, c1) =>
      .ok (ls ++ [" cmp r0, #1",
                  " moveq r0, #" ++ squote ++ "." ++ squote,
                  " movne r0, #" ++ squote ++ "F" ++ squote,
                  " bl putchar"], e1, c1)
  | .assert none, _, _ => .error ("TypeError: condition is undefined")

/-- `Block.emit` / `Main.emit` body: `statements.forEach(s => s.emit(env))`. -/
def emitSeq : List AST → Environment → Nat → EmitM
  | [], env, c => .ok ([], env, c)
  | s :: rest, env, c =>
    match emitAST s env c with
    | .error m => .error m
    | .ok (ls, e1, c1) =>
      match emitSeq rest e1 c1 with
      | .error m => .error m
      | .ok (ls2, e2, c2) => .ok (ls ++ ls2, e2, c2)

/-- `Call.emit`, 2 to 4 arguments: `args.forEach((arg, i) => { arg.emit(env);
emit(str r0, [sp, #4i]) })`. -/
def emitArgs : List AST → Nat → Environment → Nat → EmitM
  | [], _, env, c => .ok ([], env, c)
  | a :: rest, i, env, c =>
    match emitAST a env c with
    | .error m => .error m
    | .ok (ls, e1, c1) =>
      match emitArgs rest (i + 1) e1 c1 with
      | .error m => .error m
      | .ok (ls2, e2, c2) =>
        .ok (ls ++ [" str r0, [sp, #" ++ toString (4 * i) ++ "]"] ++ ls2, e2, c2)

end

/-! ## Parser combinators (Chapter 5)

`class Source { string; index }` with the string kept as its character list,
and `interface Parser<T> { parse(source): ParseResult<T> | null }` with a
`ParseResult` as a plain pair.  The source's sticky regexes are modelled by
matcher functions returning the length of the (unique, maximal) match at the
current index, see the Chapter 6 section below. -/

structure Source where
  string : List Char
  index : Nat

structure Parser (T : Type) where
  parse : Source → Option (T × Source)

/-- `Source.match(regexp)` for a sticky regex modelled by the matcher `m`:
on success the value is the matched text and the cursor advances by its
length. -/
def regexpP (m : List Char → Option Nat) : Parser String :=
  ⟨fun src =>
    match m (src.string.drop src.index) with
    | some n => some (String.mk ((src.string.drop src.index).take n), ⟨src.string, src.index + n⟩)
    | none => none⟩

/-- `Parser.constant(value)`: always succeeds without advancing. -/
def Parser.constant (v : T) : Parser T :=
  ⟨fun src => some (v, src)⟩

/-- `or(parser)`: try the first parser, on a miss try the second from the
same source. -/
def Parser.or (p q : Parser T) : Parser T :=
  ⟨fun src =>
    match p.parse src with
    | some r => some r
    | none => q.parse src⟩

/-- `bind(callback)`: apply the parser, on success run the callback's parser
from the resulting cursor. -/
def Parser.bind (p : Parser T) (f : T → Parser U) : Parser U :=
  ⟨fun src =>
    match p.parse src with
    | some (v, src1) => (f v).parse src1
    | none => none⟩

/-- `and(parser)` is `bind((_) => parser)`. -/
def Parser.and (p : Parser T) (q : Parser U) : Parser U :=
  p.bind fun _ => q

/-- `map(callback)` is `bind((v) => constant(callback(v)))`. -/
def Parser.map (p : Parser T) (f : T → U) : Parser U :=
  p.bind fun v => Parser.constant (f v)

/-- `maybe(parser)` is `parser.or(constant(null))`, the JS `null` sentinel
rendered as an `Option`. -/
def Parser.maybe (p : Parser T) : Parser (Option T) :=
  (p.map some).or (Parser.constant none)

/-- The `while ((item = parser.parse(source)))` loop of `zeroOrMore`,
instrumented with fuel.  The source's loop has no fuel; a run that exhausts
every fuel bound corresponds to a JS run that never terminates, and is
modelled by `none`. -/
def zeroOrMoreAux (p : Parser T) : Nat → Source → List T → Option (List T × Source)
  | 0, _, _ => none
  | fuel + 1, src, acc =>
    match p.parse src with
    | none => some (acc, src)
    | some (v, src1) => zeroOrMoreAux p fuel src1 (acc ++ [v])

/-- `Parser.zeroOrMore(parser)`: repeatedly apply the parser, collecting the
values, until it misses.  The fuel `length - index + 1` is sufficient for
every parser that strictly advances on success (proved below), so on such
parsers this equals the source's unbounded loop. -/
def Parser.zeroOrMore (p : Parser T) : Parser (List T) :=
  ⟨fun src => zeroOrMoreAux p (src.string.length - src.index + 1) src []⟩

/-- `parseStringToCompletion(string)`: parse from index 0, fail fatally on a
miss or when the resulting cursor is not at the end of its string. -/
def Parser.parseStringToCompletion (p : Parser T) (s : String) : Except String T :=
  match p.parse ⟨s.data, 0⟩ with
  | none => .error ("Parse error at index 0")
  | some (v, src) =>
    if src.index ≠ src.string.length then .error ("Parse error at index " ++ toString src.index)
    else .ok v

/-! ## The lexical layer (Chapter 6)

Each sticky regex of the source becomes a matcher function on the character
list at the cursor, returning the length of the match.  JS semantics
reproduced: `.` without the `s` flag matches anything but a line terminator;
with the `s` flag it matches any character, and the greedy `.*` of the
block-comment regex `[/][*].*[*][/]` therefore matches up to the **last**
`*/` in the remaining input; `\b` requires a non-word character (or the end
of input) after a keyword. -/

def isWsChar (c : Char) : Bool :=
  c == ' ' || c == '\n' || c == '\r' || c == '\t'

def isWordChar (c : Char) : Bool :=
  c.isAlpha || c.isDigit || c == '_'

def isIdStart (c : Char) : Bool :=
  c.isAlpha || c == '_'

/-- `/[ \n\r\t]+/y`. -/
def whitespaceM (l : List Char) : Option Nat :=
  if (l.takeWhile isWsChar).length = 0 then none else some (l.takeWhile isWsChar).length

/-- `/[/][/].*/y` — a line comment runs to the line terminator. -/
def lineCommentM : List Char → Option Nat
  | '/' :: '/' :: rest => some (2 + (rest.takeWhile (fun c => !(c == '\n' || c == '\r'))).length)
  | _ => none

/-- Position of the last occurrence of `*/` in the list (the backtracking
point of the greedy `.*` of `/[/][*].*[*][/]/sy`). -/
def lastStarSlash : List Char → Option Nat
  | [] => none
  | c :: rest =>
    match lastStarSlash rest with
    | some j => some (j + 1)
    | none => if c == '*' && rest.head? == some '/' then some 0 else none

/-- `/[/][*].*[*][/]/sy` — greedy: consumes from `/*` to the last `*/`. -/
def blockCommentM : List Char → Option Nat
  | '/' :: '*' :: rest =>
    match lastStarSlash rest with
    | some j => some (j + 4)
    | none => none
  | _ => none

def startsList : List Char → List Char → Bool
  | [], _ => true
  | _ :: _, [] => false
  | a :: as, b :: bs => a == b && startsList as bs

/-- A keyword regex `/word\b/y`. -/
def keywordM (w : List Char) (l : List Char) : Option Nat :=
  if startsList w l then
    match l.drop w.length with
    | [] => some w.length
    | c :: _ => if isWordChar c then none else some w.length
  else none

/-- A literal token regex such as `/[,]/y` or `/==/y`. -/
def litM (w : List Char) (l : List Char) : Option Nat :=
  if startsList w l then some w.length else none

/-- `/[0-9]+/y`. -/
def digitsM (l : List Char) : Option Nat :=
  if (l.takeWhile Char.isDigit).length = 0 then none
  else some (l.takeWhile Char.isDigit).length

/-- `/[a-zA-Z_][a-zA-Z0-9_]*/y`. -/
def identM : List Char → Option Nat
  | [] => none
  | c :: rest => if isIdStart c then some (1 + (rest.takeWhile isWordChar).length) else none

def whitespaceP : Parser String :=
  regexpP whitespaceM

/-- `comments = regexp(line).or(regexp(block))`. -/
def commentsP : Parser String :=
  (regexpP lineCommentM).or (regexpP blockCommentM)

/-- `ignored = zeroOrMore(whitespace.or(comments))`. -/
def ignoredP : Parser (List String) :=
  Parser.zeroOrMore (whitespaceP.or commentsP)

/-- `token = (pattern) => regexp(pattern).bind((value) => ignored.and(constant(value)))`. -/
def tokenP (m : List Char → Option Nat) : Parser String :=
  (regexpP m).bind fun v => ignoredP.and (Parser.constant v)

def FUNCTION : Parser String := tokenP (keywordM ("function".data))
def IF : Parser String := tokenP (keywordM ("if".data))
def ELSE : Parser String := tokenP (keywordM ("else".data))
def RETURN : Parser String := tokenP (keywordM ("return".data))
def VAR : Parser String := tokenP (keywordM ("var".data))
def WHILE : Parser String := tokenP (keywordM ("while".data))

def COMMA : Parser String := tokenP (litM (",".data))
def SEMICOLON : Parser String := tokenP (litM (";".data))
def LEFT_PAREN : Parser String := tokenP (litM ("(".data))
def RIGHT_PAREN : Parser String := tokenP (litM (")".data))
def LEFT_BRACE : Parser String := tokenP (litM ("\x7b".data))
def RIGHT_BRACE : Parser String := tokenP (litM ("\x7d".data))

/-- `parseInt` on a digits-only match. -/
def parseDec (s : String) : Int :=
  s.data.foldl (fun a c => a * 10 + (Int.ofNat (c.toNat - 48))) 0

/-- `NUMBER = token(/[0-9]+/y).map((digits) => new Number(parseInt(digits)))`. -/
def NUMBER : Parser AST :=
  (tokenP digitsM).map fun ds => AST.number (parseDec ds)

def ID : Parser String :=
  tokenP identM

/-- `id = ID.map((x) => new Id(x))`. -/
def idP : Parser AST :=
  ID.map fun x => AST.id x

/-- `NOT = token(/!/y).map((_) => Not)` — the value (the `Not` class) is only
used to decide whether to wrap, kept as a unit. -/
def NOT : Parser Unit :=
  (tokenP (litM ("!".data))).map fun _ => ()

def EQUAL : Parser (AST → AST → AST) :=
  (tokenP (litM ("==".data))).map fun _ => AST.equal

def NOT_EQUAL : Parser (AST → AST → AST) :=
  (tokenP (litM ("!=".data))).map fun _ => AST.notEqual

def PLUS : Parser (AST → AST → AST) :=
  (tokenP (litM ("+".data))).map fun _ => AST.add

def MINUS : Parser (AST → AST → AST) :=
  (tokenP (litM ("-".data))).map fun _ => AST.subtract

def STAR : Parser (AST → AST → AST) :=
  (tokenP (litM ("*".data))).map fun _ => AST.multiply

def SLASH : Parser (AST → AST → AST) :=
  (tokenP (litM ("/".data))).map fun _ => AST.divide

/-- `ASSIGN = token(/=/y).map((_) => Assign)`; the value is never used. -/
def ASSIGN : Parser Unit :=
  (tokenP (litM ("=".data))).map fun _ => ()

/-! ## The grammar (Chapter 6)

The source builds `expression` and `statement` as `Parser.error`
placeholders whose `parse` is replaced by the real, mutually recursive
function before any input is parsed.  The embedding expresses the resolved
recursion directly, with a fuel parameter decremented at every recursive
reference; `parser` below instantiates the fuel at `2 * length + 2`, which
is sufficient for every input because along any recursion path at most
every second fuel decrement happens without consuming a character
(only the `statement → expression` step of `expressionStatement` is
consumption-free; all other recursive references sit behind at least one
consumed token). -/

/-- `args <- expression (COMMA expression)* | nothing`. -/
def argsP (expression : Parser AST) : Parser (List AST) :=
  (expression.bind fun arg =>
    (Parser.zeroOrMore (COMMA.and expression)).bind fun rest =>
      Parser.constant (arg :: rest)).or (Parser.constant [])

/-- The value built by the `call` rule:
`callee === 'assert' ? new Assert(args[0]) : new Call(callee, args)`
(`args[0]` is `undefined`, i.e. `none`, on an empty argument list). -/
def buildCall (callee : String) (args : List AST) : AST :=
  if callee == "assert" then AST.assert args.head? else AST.call callee args

/-- `call <- ID LEFT_PAREN args RIGHT_PAREN`. -/
def callP (expression : Parser AST) : Parser AST :=
  ID.bind fun callee =>
    LEFT_PAREN.and
      ((argsP expression).bind fun args =>
        RIGHT_PAREN.and (Parser.constant (buildCall callee args)))

/-- `atom <- call / id / NUMBER / LEFT_PAREN expression RIGHT_PAREN`. -/
def atomP (expression : Parser AST) : Parser AST :=
  ((callP expression).or idP).or NUMBER
    |>.or ((LEFT_PAREN.and expression).bind fun e => RIGHT_PAREN.and (Parser.constant e))

/-- `unary <- NOT? atom`. -/
def unaryP (expression : Parser AST) : Parser AST :=
  (Parser.maybe NOT).bind fun o =>
    (atomP expression).map fun term =>
      match o with
      | some _ => AST.not term
      | none => term

/-- The source's left-associative `infix` combinator: `termParser` followed
by zero or more (operator, term) pairs, folded left. -/
def leftAssocP (operatorParser : Parser (AST → AST → AST)) (termParser : Parser AST) : Parser AST :=
  termParser.bind fun term =>
    (Parser.zeroOrMore
      (operatorParser.bind fun op =>
        termParser.bind fun t => Parser.constant (op, t))).map fun operatorTerms =>
      operatorTerms.foldl (fun left ot => ot.1 left ot.2) term

/-- `expression.parse = comparison.parse` with
`comparison <- sum ((EQUAL / NOT_EQUAL) sum)*`,
`sum <- product ((PLUS / MINUS) product)*`,
`product <- unary ((STAR / SLASH) unary)*`. -/
def expressionBody (expression : Parser AST) : Parser AST :=
  leftAssocP (EQUAL.or NOT_EQUAL)
    (leftAssocP (PLUS.or MINUS)
      (leftAssocP (STAR.or SLASH) (unaryP expression)))

/-- The resolved mutually recursive `expression` parser, by fuel. -/
def expressionP : Nat → Parser AST
  | 0 => ⟨fun _ => none⟩
  | f + 1 => expressionBody (expressionP f)

def returnStatementP (expression : Parser AST) : Parser AST :=
  (RETURN.and expression).bind fun term =>
    SEMICOLON.and (Parser.constant (AST.ret term))

def expressionStatementP (expression : Parser AST) : Parser AST :=
  expression.bind fun term => SEMICOLON.and (Parser.constant term)

def ifStatementP (expression statement : Parser AST) : Parser AST :=
  ((IF.and LEFT_PAREN).and expression).bind fun conditional =>
    (RIGHT_PAREN.and statement).bind fun consequence =>
      (ELSE.and statement).bind fun alternative =>
        Parser.constant (AST.ifNode conditional consequence alternative)

def whileStatementP (expression statement : Parser AST) : Parser AST :=
  ((WHILE.and LEFT_PAREN).and expression).bind fun conditional =>
    (RIGHT_PAREN.and statement).bind fun body =>
      Parser.constant (AST.whileNode conditional body)

def varStatementP (expression : Parser AST) : Parser AST :=
  (VAR.and ID).bind fun name =>
    (ASSIGN.and expression).bind fun value =>
      SEMICOLON.and (Parser.constant (AST.var name value))

def assignmentStatementP (expression : Parser AST) : Parser AST :=
  ID.bind fun name =>
    (ASSIGN.and expression).bind fun value =>
      SEMICOLON.and (Parser.constant (AST.assign name value))

def blockStatementP (statement : Parser AST) : Parser AST :=
  (LEFT_BRACE.and (Parser.zeroOrMore statement)).bind fun statements =>
    RIGHT_BRACE.and (Parser.constant (AST.block statements))

/-- `parameters <- ID (COMMA ID)* | nothing`. -/
def parametersP : Parser (List String) :=
  (ID.bind fun param =>
    (Parser.zeroOrMore (COMMA.and ID)).bind fun params =>
      Parser.constant (param :: params)).or (Parser.constant [])

def functionStatementP (statement : Parser AST) : Parser AST :=
  (FUNCTION.and ID).bind fun name =>
    (LEFT_PAREN.and parametersP).bind fun parameters =>
      (RIGHT_PAREN.and (blockStatementP statement)).bind fun block =>
        Parser.constant (AST.function name parameters block)

/-- The ordered choice of the statement alternatives, exactly in source
order. -/
def statementAlts (expression statement : Parser AST) : Parser AST :=
  (returnStatementP expression).or (functionStatementP statement)
    |>.or (ifStatementP expression statement)
    |>.or (whileStatementP expression statement)
    |>.or (varStatementP expression)
    |>.or (assignmentStatementP expression)
    |>.or (blockStatementP statement)
    |>.or (expressionStatementP expression)

/-- The resolved mutually recursive `statement` parser, by fuel. -/
def statementP : Nat → Parser AST
  | 0 => ⟨fun _ => none⟩
  | f + 1 => statementAlts (expressionP f) (statementP f)

/-- `parser = ignored.and(zeroOrMore(statement)).map((statements) => new Block(statements))`. -/
def parser : Parser AST :=
  ⟨fun src =>
    ((ignoredP.and
        (Parser.zeroOrMore (statementP (2 * src.string.length + 2)))).map
      (fun statements => AST.block statements)).parse src⟩

/-! ## Progress properties of parsers

`Adv p`: every success of `p` strictly advances the cursor within the same
string and stays in bounds.  `Wk p`: every success weakly advances (possibly
ending exactly where it started, even out of bounds, as `constant` does).
These play the role of the consumption discipline that makes the source's
`zeroOrMore` loop and the recursive grammar terminate. -/

def Adv (p : Parser T) : Prop :=
  ∀ src v out, p.parse src = some (v, out) →
    out.string = src.string ∧ src.index < out.index ∧ out.index ≤ src.string.length

def Wk (p : Parser T) : Prop :=
  ∀ src v out, p.parse src = some (v, out) →
    out.string = src.string ∧ src.index ≤ out.index ∧
      (out.index ≤ src.string.length ∨ out.index = src.index)

theorem Adv.wk {p : Parser T} (h : Adv p) : Wk p := by
  intro src v out e
  obtain ⟨hs, hlt, hle⟩ := h src v out e
  exact ⟨hs, Nat.le_of_lt hlt, Or.inl hle⟩

theorem wk_constant (v : T) : Wk (Parser.constant v) := by
  intro src w out e
  simp only [Parser.constant, Option.some.injEq, Prod.mk.injEq] at e
  obtain ⟨-, rfl⟩ := e
  exact ⟨rfl, Nat.le_refl _, Or.inr rfl⟩

theorem wk_bind {p : Parser T} {f : T → Parser U} (hp : Wk p) (hf : ∀ v, Wk (f v)) :
    Wk (p.bind f) := by
  intro src v out e
  simp only [Parser.bind] at e
  cases h1 : p.parse src with
  | none => exact Option.noConfusion (h1 ▸ e)
  | some r =>
    obtain ⟨w, mid⟩ := r
    simp only [h1] at e
    obtain ⟨hs1, hi1, hb1⟩ := hp src w mid h1
    obtain ⟨hs2, hi2, hb2⟩ := hf w mid v out e
    have hlen : mid.string.length = src.string.length := by rw [hs1]
    refine ⟨hs2.trans hs1, Nat.le_trans hi1 hi2, ?_⟩
    rw [hlen] at hb2
    omega

theorem adv_bind {p : Parser T} {f : T → Parser U} (hp : Adv p) (hf : ∀ v, Wk (f v)) :
    Adv (p.bind f) := by
  intro src v out e
  simp only [Parser.bind] at e
  cases h1 : p.parse src with
  | none => exact Option.noConfusion (h1 ▸ e)
  | some r =>
    obtain ⟨w, mid⟩ := r
    simp only [h1] at e
    obtain ⟨hs1, hi1, hb1⟩ := hp src w mid h1
    obtain ⟨hs2, hi2, hb2⟩ := hf w mid v out e
    have hlen : mid.string.length = src.string.length := by rw [hs1]
    refine ⟨hs2.trans hs1, ?_, ?_⟩ <;> (rw [hlen] at hb2; omega)

theorem wk_adv_bind {p : Parser T} {f : T → Parser U} (hp : Wk p) (hf : ∀ v, Adv (f v)) :
    Adv (p.bind f) := by
  intro src v out e
  simp only [Parser.bind] at e
  cases h1 : p.parse src with
  | none => exact Option.noConfusion (h1 ▸ e)
  | some r =>
    obtain ⟨w, mid⟩ := r
    simp only [h1] at e
    obtain ⟨hs1, hi1, hb1⟩ := hp src w mid h1
    obtain ⟨hs2, hi2, hb2⟩ := hf w mid v out e
    have hlen : mid.string.length = src.string.length := by rw [hs1]
    refine ⟨hs2.trans hs1, ?_, ?_⟩ <;> omega

theorem wk_or {p q : Parser T} (hp : Wk p) (hq : Wk q) : Wk (p.or q) := by
  intro src v out e
  simp only [Parser.or] at e
  cases h1 : p.parse src with
  | none => simp only [h1] at e; exact hq src v out e
  | some r =>
    obtain ⟨w, mid⟩ := r
    simp only [h1, Option.some.injEq, Prod.mk.injEq] at e
    obtain ⟨rfl, rfl⟩ := e
    exact hp src _ _ h1

theorem adv_or {p q : Parser T} (hp : Adv p) (hq : Adv q) : Adv (p.or q) := by
  intro src v out e
  simp only [Parser.or] at e
  cases h1 : p.parse src with
  | none => simp only [h1] at e; exact hq src v out e
  | some r =>
    obtain ⟨w, mid⟩ := r
    simp only [h1, Option.some.injEq, Prod.mk.injEq] at e
    obtain ⟨rfl, rfl⟩ := e
    exact hp src _ _ h1

theorem wk_map {p : Parser T} {f : T → U} (hp : Wk p) : Wk (p.map f) :=
  wk_bind hp fun v => wk_constant (f v)

theorem adv_map {p : Parser T} {f : T → U} (hp : Adv p) : Adv (p.map f) :=
  adv_bind hp fun v => wk_constant (f v)

theorem wk_and {p : Parser T} {q : Parser U} (hp : Wk p) (hq : Wk q) : Wk (p.and q) :=
  wk_bind hp fun _ => hq

theorem adv_and_left {p : Parser T} {q : Parser U} (hp : Adv p) (hq : Wk q) : Adv (p.and q) :=
  adv_bind hp fun _ => hq

theorem wk_adv_and {p : Parser T} {q : Parser U} (hp : Wk p) (hq : Adv q) : Adv (p.and q) :=
  wk_adv_bind hp fun _ => hq

theorem wk_maybe {p : Parser T} (hp : Wk p) : Wk (Parser.maybe p) :=
  wk_or (wk_map hp) (wk_constant none)

/-- A sticky-regex matcher is well formed when every match is nonempty and
no longer than the input it matched against. -/
def MOk (m : List Char → Option Nat) : Prop :=
  ∀ l n, m l = some n → 1 ≤ n ∧ n ≤ l.length

theorem adv_regexpP {m : List Char → Option Nat} (hm : MOk m) : Adv (regexpP m) := by
  intro src v out e
  simp only [regexpP] at e
  cases h1 : m (src.string.drop src.index) with
  | none => exact Option.noConfusion (h1 ▸ e)
  | some n =>
    simp only [h1, Option.some.injEq, Prod.mk.injEq] at e
    obtain ⟨-, rfl⟩ := e
    obtain ⟨h1n, h2n⟩ := hm _ _ h1
    have hd : (src.string.drop src.index).length = src.string.length - src.index :=
      List.length_drop _ _
    refine ⟨rfl, ?_, ?_⟩ <;> simp only [] <;> omega

theorem takeWhile_len_le (p : Char → Bool) (l : List Char) :
    (l.takeWhile p).length ≤ l.length :=
  (List.takeWhile_prefix p).length_le

theorem mok_whitespaceM : MOk whitespaceM := by
  intro l n h
  unfold whitespaceM at h
  split at h
  · exact Option.noConfusion h
  · simp only [Option.some.injEq] at h
    subst h
    exact ⟨by omega, takeWhile_len_le _ _⟩

theorem mok_lineCommentM : MOk lineCommentM := by
  intro l n h
  unfold lineCommentM at h
  split at h
  next rest =>
    simp only [Option.some.injEq] at h
    subst h
    have := takeWhile_len_le (fun c => !(c == '\n' || c == '\r')) rest
    simp only [List.length_cons]
    omega
  next => exact Option.noConfusion h

theorem lastStarSlash_le : ∀ l j, lastStarSlash l = some j → j + 2 ≤ l.length := by
  intro l
  induction l with
  | nil => intro j h; exact Option.noConfusion h
  | cons c rest ih =>
    intro j h
    unfold lastStarSlash at h
    cases h1 : lastStarSlash rest with
    | some j2 =>
      simp only [h1, Option.some.injEq] at h
      subst h
      have := ih j2 h1
      simp only [List.length_cons]
      omega
    | none =>
      simp only [h1] at h
      split at h
      case isTrue hc =>
        simp only [Option.some.injEq] at h
        subst h
        simp only [Bool.and_eq_true, beq_iff_eq] at hc
        cases rest with
        | nil => simp at hc
        | cons d ds => simp only [List.length_cons]; omega
      case isFalse => exact Option.noConfusion h

theorem mok_blockCommentM : MOk blockCommentM := by
  intro l n h
  unfold blockCommentM at h
  split at h
  next rest =>
    cases h1 : lastStarSlash rest with
    | some j =>
      simp only [h1, Option.some.injEq] at h
      subst h
      have := lastStarSlash_le rest j h1
      simp only [List.length_cons]
      omega
    | none => simp only [h1] at h; exact Option.noConfusion h
  next => exact Option.noConfusion h

theorem startsList_le : ∀ w l : List Char, startsList w l = true → w.length ≤ l.length := by
  intro w
  induction w with
  | nil => intro l _; simp
  | cons a as ih =>
    intro l h
    cases l with
    | nil => exact Bool.noConfusion h
    | cons b bs =>
      simp only [startsList, Bool.and_eq_true] at h
      have := ih bs h.2
      simp only [List.length_cons]
      omega

theorem mok_keywordM (w : List Char) (hw : w ≠ []) : MOk (keywordM w) := by
  intro l n h
  unfold keywordM at h
  split at h
  case isTrue hpre =>
    have hl := startsList_le w l hpre
    have hw1 : 1 ≤ w.length := by cases w with | nil => exact absurd rfl hw | cons _ _ => simp
    split at h
    · simp only [Option.some.injEq] at h; omega
    · split at h
      · exact Option.noConfusion h
      · simp only [Option.some.injEq] at h; omega
  case isFalse => exact Option.noConfusion h

theorem mok_litM (w : List Char) (hw : w ≠ []) : MOk (litM w) := by
  intro l n h
  unfold litM at h
  split at h
  case isTrue hpre =>
    have hl := startsList_le w l hpre
    have hw1 : 1 ≤ w.length := by cases w with | nil => exact absurd rfl hw | cons _ _ => simp
    simp only [Option.some.injEq] at h
    omega
  case isFalse => exact Option.noConfusion h

theorem mok_digitsM : MOk digitsM := by
  intro l n h
  unfold digitsM at h
  split at h
  · exact Option.noConfusion h
  · simp only [Option.some.injEq] at h
    subst h
    exact ⟨by omega, takeWhile_len_le _ _⟩

theorem mok_identM : MOk identM := by
  intro l n h
  unfold identM at h
  split at h
  next => exact Option.noConfusion h
  next c rest =>
    split at h
    · simp only [Option.some.injEq] at h
      subst h
      have := takeWhile_len_le isWordChar rest
      simp only [List.length_cons]
      omega
    · exact Option.noConfusion h

theorem zomAux_wk {p : Parser T} (hp : Adv p) :
    ∀ fuel src acc vs out, zeroOrMoreAux p fuel src acc = some (vs, out) →
      out.string = src.string ∧ src.index ≤ out.index ∧
        (out.index ≤ src.string.length ∨ out.index = src.index) := by
  intro fuel
  induction fuel with
  | zero => intro src acc vs out h; exact Option.noConfusion h
  | succ f ih =>
    intro src acc vs out h
    unfold zeroOrMoreAux at h
    cases h1 : p.parse src with
    | none =>
      simp only [h1, Option.some.injEq, Prod.mk.injEq] at h
      obtain ⟨-, rfl⟩ := h
      exact ⟨rfl, Nat.le_refl _, Or.inr rfl⟩
    | some r =>
      obtain ⟨v, mid⟩ := r
      simp only [h1] at h
      obtain ⟨hs1, hi1, hb1⟩ := hp src v mid h1
      obtain ⟨hs2, hi2, hb2⟩ := ih mid _ vs out h
      have hlen : mid.string.length = src.string.length := by rw [hs1]
      refine ⟨hs2.trans hs1, by omega, by rw [hlen] at hb2; omega⟩

theorem zomAux_isSome {p : Parser T} (hp : Adv p) :
    ∀ fuel src acc, src.string.length - src.index < fuel →
      ∃ vs out, zeroOrMoreAux p fuel src acc = some (vs, out) := by
  intro fuel
  induction fuel with
  | zero => intro src acc h; omega
  | succ f ih =>
    intro src acc hfuel
    cases h1 : p.parse src with
    | none => exact ⟨acc, src, by unfold zeroOrMoreAux; simp only [h1]⟩
    | some r =>
      obtain ⟨v, mid⟩ := r
      obtain ⟨hs1, hi1, hb1⟩ := hp src v mid h1
      obtain ⟨vs, out, h2⟩ := ih mid (acc ++ [v]) (by rw [hs1]; omega)
      exact ⟨vs, out, by unfold zeroOrMoreAux; simp only [h1, h2]⟩

theorem wk_zeroOrMore {p : Parser T} (hp : Adv p) : Wk (Parser.zeroOrMore p) := by
  intro src vs out h
  exact zomAux_wk hp _ src [] vs out h

theorem total_zeroOrMore {p : Parser T} (hp : Adv p) :
    ∀ src, ∃ vs out, (Parser.zeroOrMore p).parse src = some (vs, out) := by
  intro src
  exact zomAux_isSome hp (src.string.length - src.index + 1) src [] (by omega)

/-! Progress of the lexical layer. -/

theorem adv_whitespaceP : Adv whitespaceP :=
  adv_regexpP mok_whitespaceM

theorem adv_commentsP : Adv commentsP :=
  adv_or (adv_regexpP mok_lineCommentM) (adv_regexpP mok_blockCommentM)

theorem wk_ignoredP : Wk ignoredP :=
  wk_zeroOrMore (adv_or adv_whitespaceP adv_commentsP)

theorem total_ignoredP : ∀ src, ∃ vs out, ignoredP.parse src = some (vs, out) :=
  total_zeroOrMore (adv_or adv_whitespaceP adv_commentsP)

theorem adv_tokenP {m : List Char → Option Nat} (hm : MOk m) : Adv (tokenP m) :=
  adv_bind (adv_regexpP hm) fun _ => wk_and wk_ignoredP (wk_constant _)

theorem adv_FUNCTION : Adv FUNCTION := adv_tokenP (mok_keywordM _ (by decide))
theorem adv_IF : Adv IF := adv_tokenP (mok_keywordM _ (by decide))
theorem adv_ELSE : Adv ELSE := adv_tokenP (mok_keywordM _ (by decide))
theorem adv_RETURN : Adv RETURN := adv_tokenP (mok_keywordM _ (by decide))
theorem adv_VAR : Adv VAR := adv_tokenP (mok_keywordM _ (by decide))
theorem adv_WHILE : Adv WHILE := adv_tokenP (mok_keywordM _ (by decide))
theorem adv_COMMA : Adv COMMA := adv_tokenP (mok_litM _ (by decide))
theorem adv_SEMICOLON : Adv SEMICOLON := adv_tokenP (mok_litM _ (by decide))
theorem adv_LEFT_PAREN : Adv LEFT_PAREN := adv_tokenP (mok_litM _ (by decide))
theorem adv_RIGHT_PAREN : Adv RIGHT_PAREN := adv_tokenP (mok_litM _ (by decide))
theorem adv_LEFT_BRACE : Adv LEFT_BRACE := adv_tokenP (mok_litM _ (by decide))
theorem adv_RIGHT_BRACE : Adv RIGHT_BRACE := adv_tokenP (mok_litM _ (by decide))
theorem adv_NUMBER : Adv NUMBER := adv_map (adv_tokenP mok_digitsM)
theorem adv_ID : Adv ID := adv_tokenP mok_identM
theorem adv_idP : Adv idP := adv_map adv_ID
theorem adv_NOT : Adv NOT := adv_map (adv_tokenP (mok_litM _ (by decide)))
theorem adv_EQUAL : Adv EQUAL := adv_map (adv_tokenP (mok_litM _ (by decide)))
theorem adv_NOT_EQUAL : Adv NOT_EQUAL := adv_map (adv_tokenP (mok_litM _ (by decide)))
theorem adv_PLUS : Adv PLUS := adv_map (adv_tokenP (mok_litM _ (by decide)))
theorem adv_MINUS : Adv MINUS := adv_map (adv_tokenP (mok_litM _ (by decide)))
theorem adv_STAR : Adv STAR := adv_map (adv_tokenP (mok_litM _ (by decide)))
theorem adv_SLASH : Adv SLASH := adv_map (adv_tokenP (mok_litM _ (by decide)))
theorem adv_ASSIGN : Adv ASSIGN := adv_map (adv_tokenP (mok_litM _ (by decide)))

/-! Progress of the grammar. -/

theorem wk_argsP {e : Parser AST} (he : Adv e) : Wk (argsP e) :=
  wk_or
    (wk_bind he.wk fun _ =>
      wk_bind (wk_zeroOrMore (adv_and_left adv_COMMA he.wk)) fun _ => wk_constant _)
    (wk_constant [])

theorem adv_callP {e : Parser AST} (he : Adv e) : Adv (callP e) :=
  adv_bind adv_ID fun _ =>
    wk_and (adv_LEFT_PAREN.wk) <|
      wk_bind (wk_argsP he) fun _ => wk_and adv_RIGHT_PAREN.wk (wk_constant _)

theorem adv_atomP {e : Parser AST} (he : Adv e) : Adv (atomP e) :=
  adv_or (adv_or (adv_or (adv_callP he) adv_idP) adv_NUMBER)
    (adv_bind (adv_and_left adv_LEFT_PAREN he.wk) fun _ =>
      wk_and adv_RIGHT_PAREN.wk (wk_constant _))

theorem adv_unaryP {e : Parser AST} (he : Adv e) : Adv (unaryP e) :=
  wk_adv_bind (wk_maybe adv_NOT.wk) fun _ => adv_map (adv_atomP he)

theorem adv_leftAssocP {op : Parser (AST → AST → AST)} {t : Parser AST}
    (hop : Adv op) (ht : Adv t) : Adv (leftAssocP op t) :=
  adv_bind ht fun _ =>
    wk_map (wk_zeroOrMore (adv_bind hop fun _ => (adv_bind ht fun _ => wk_constant _).wk))

theorem adv_expressionBody {e : Parser AST} (he : Adv e) : Adv (expressionBody e) :=
  adv_leftAssocP (adv_or adv_EQUAL adv_NOT_EQUAL)
    (adv_leftAssocP (adv_or adv_PLUS adv_MINUS)
      (adv_leftAssocP (adv_or adv_STAR adv_SLASH) (adv_unaryP he)))

theorem adv_expressionP : ∀ f, Adv (expressionP f) := by
  intro f
  induction f with
  | zero => intro src v out h; exact Option.noConfusion h
  | succ f ih => exact adv_expressionBody ih

theorem adv_returnStatementP {e : Parser AST} (he : Adv e) : Adv (returnStatementP e) :=
  adv_bind (adv_and_left adv_RETURN he.wk) fun _ => wk_and adv_SEMICOLON.wk (wk_constant _)

theorem adv_expressionStatementP {e : Parser AST} (he : Adv e) : Adv (expressionStatementP e) :=
  adv_bind he fun _ => wk_and adv_SEMICOLON.wk (wk_constant _)

theorem adv_ifStatementP {e st : Parser AST} (he : Adv e) (hst : Adv st) :
    Adv (ifStatementP e st) :=
  adv_bind (adv_and_left (adv_and_left adv_IF adv_LEFT_PAREN.wk) he.wk) fun _ =>
    wk_bind (wk_and adv_RIGHT_PAREN.wk hst.wk) fun _ =>
      wk_bind (wk_and adv_ELSE.wk hst.wk) fun _ => wk_constant _

theorem adv_whileStatementP {e st : Parser AST} (he : Adv e) (hst : Adv st) :
    Adv (whileStatementP e st) :=
  adv_bind (adv_and_left (adv_and_left adv_WHILE adv_LEFT_PAREN.wk) he.wk) fun _ =>
    wk_bind (wk_and adv_RIGHT_PAREN.wk hst.wk) fun _ => wk_constant _

theorem adv_varStatementP {e : Parser AST} (he : Adv e) : Adv (varStatementP e) :=
  adv_bind (adv_and_left adv_VAR adv_ID.wk) fun _ =>
    wk_bind (wk_and adv_ASSIGN.wk he.wk) fun _ => wk_and adv_SEMICOLON.wk (wk_constant _)

theorem adv_assignmentStatementP {e : Parser AST} (he : Adv e) :
    Adv (assignmentStatementP e) :=
  adv_bind adv_ID fun _ =>
    wk_bind (wk_and adv_ASSIGN.wk he.wk) fun _ => wk_and adv_SEMICOLON.wk (wk_constant _)

theorem adv_blockStatementP {st : Parser AST} (hst : Adv st) : Adv (blockStatementP st) :=
  adv_bind (adv_and_left adv_LEFT_BRACE (wk_zeroOrMore hst)) fun _ =>
    wk_and adv_RIGHT_BRACE.wk (wk_constant _)

theorem wk_parametersP : Wk parametersP :=
  wk_or
    (wk_bind adv_ID.wk fun _ =>
      wk_bind (wk_zeroOrMore (adv_and_left adv_COMMA adv_ID.wk)) fun _ => wk_constant _)
    (wk_constant [])

theorem adv_functionStatementP {st : Parser AST} (hst : Adv st) :
    Adv (functionStatementP st) :=
  adv_bind (adv_and_left adv_FUNCTION adv_ID.wk) fun _ =>
    wk_bind (wk_and adv_LEFT_PAREN.wk wk_parametersP) fun _ =>
      wk_bind (wk_and adv_RIGHT_PAREN.wk (adv_blockStatementP hst).wk) fun _ => wk_constant _

theorem adv_statementAlts {e st : Parser AST} (he : Adv e) (hst : Adv st) :
    Adv (statementAlts e st) :=
  adv_or (adv_or (adv_or (adv_or (adv_or (adv_or (adv_or
    (adv_returnStatementP he) (adv_functionStatementP hst))
    (adv_ifStatementP he hst))
    (adv_whileStatementP he hst))
    (adv_varStatementP he))
    (adv_assignmentStatementP he))
    (adv_blockStatementP hst))
    (adv_expressionStatementP he)

theorem adv_statementP : ∀ f, Adv (statementP f) := by
  intro f
  induction f with
  | zero => intro src v out h; exact Option.noConfusion h
  | succ f ih => exact adv_statementAlts (adv_expressionP f) ih

/-- The exported top-level `parser` never misses: `ignored` always succeeds,
and `zeroOrMore(statement)` always succeeds because `statement` strictly
advances on success. -/
theorem parser_parse_some (src : Source) :
    ∃ v out, parser.parse src = some (v, out) ∧ out.string = src.string := by
  obtain ⟨vs1, mid, h1⟩ := total_ignoredP src
  obtain ⟨vs2, out, h2⟩ :=
    total_zeroOrMore (adv_statementP (2 * src.string.length + 2)) mid
  have w1 := wk_ignoredP src vs1 mid h1
  have w2 := wk_zeroOrMore (adv_statementP (2 * src.string.length + 2)) mid vs2 out h2
  refine ⟨AST.block vs2, out, ?_, w2.1.trans w1.1⟩
  simp only [parser, Parser.map, Parser.and, Parser.bind, Parser.constant, h1, h2]

/-! ## Environment invariants (for the offset-0 lookup quirk)

`envOk` says every binding's offset is negative (in particular nonzero) and
the next local offset is negative.  `setUpEnvironment` establishes it
whenever the parameter-arity check passed, and emission preserves it. -/

def envOk (env : Environment) : Prop :=
  (∀ pr ∈ env.locals, pr.2 < 0) ∧ env.nextLocalOffset < 0

theorem envOk_bindParams : ∀ (ps : List String) (i : Nat) (m : List (String × Int)),
    (∀ pr ∈ m, pr.2 < 0) → (∀ j, j < ps.length → 4 * ((i : Int) + j) - 16 < 0) →
    ∀ pr ∈ bindParams ps i m, pr.2 < 0 := by
  intro ps
  induction ps with
  | nil => intro i m hm _ pr hpr; exact hm pr hpr
  | cons p rest ih =>
    intro i m hm hoff pr hpr
    refine ih (i + 1) _ ?_ ?_ pr hpr
    · intro q hq
      cases hq with
      | head => have := hoff 0 (by simp); simpa using this
      | tail _ h => exact hm q h
    · intro j hj
      have := hoff (j + 1) (by simp only [List.length_cons]; omega)
      push_cast at this ⊢
      omega

theorem envOk_setUpEnvironment (params : List String) (hlen : params.length ≤ 4) :
    envOk (setUpEnvironment params) := by
  constructor
  · refine envOk_bindParams params 0 [] (by intro pr h; exact absurd h (List.not_mem_nil pr)) ?_
    intro j hj
    have : j ≤ 3 := by omega
    push_cast
    omega
  · simp only [setUpEnvironment]
    omega

set_option maxHeartbeats 1600000 in
mutual

/-- Emission preserves `envOk`: the only node that extends the environment is
`Var`, and it binds `nextLocalOffset - 4 < 0`; `Function` returns the outer
environment unchanged. -/
theorem envOk_emitAST (a : AST) (env : Environment) (c : Nat) (ls : List String)
    (e2 : Environment) (c2 : Nat) (henv : envOk env)
    (h : emitAST a env c = .ok (ls, e2, c2)) : envOk e2 := by
  cases a with
  | number v =>
    unfold emitAST at h
    simp only [Except.ok.injEq, Prod.mk.injEq] at h
    obtain ⟨-, rfl, -⟩ := h
    exact henv
  | id x =>
    unfold emitAST at h
    cases h1 : List.lookup x env.locals with
    | some off =>
      simp only [h1] at h
      split at h
      · exact Except.noConfusion h
      · simp only [Except.ok.injEq, Prod.mk.injEq] at h
        obtain ⟨-, rfl, -⟩ := h
        exact henv
    | none => simp only [h1] at h; exact Except.noConfusion h
  | not t =>
    unfold emitAST at h
    cases h1 : emitAST t env c with
    | error m => simp only [h1] at h; exact Except.noConfusion h
    | ok r =>
      obtain ⟨ls1, ee1, cc1⟩ := r
      simp only [h1, Except.ok.injEq, Prod.mk.injEq] at h
      obtain ⟨-, rfl, -⟩ := h
      exact envOk_emitAST t env c ls1 ee1 cc1 henv h1
  | equal l r =>
    unfold emitAST at h
    cases h1 : emitAST l env c with
    | error m => simp only [h1] at h; exact Except.noConfusion h
    | ok r1 =>
      obtain ⟨ll, ee1, cc1⟩ := r1
      simp only [h1] at h
      cases h2 : emitAST r ee1 cc1 with
      | error m => simp only [h2] at h; exact Except.noConfusion h
      | ok r2 =>
        obtain ⟨rl, ee2, cc2⟩ := r2
        simp only [h2, Except.ok.injEq, Prod.mk.injEq] at h
        obtain ⟨-, rfl, -⟩ := h
        exact envOk_emitAST r ee1 cc1 rl ee2 cc2
          (envOk_emitAST l env c ll ee1 cc1 henv h1) h2
  | notEqual l r =>
    unfold emitAST at h
    cases h1 : emitAST l env c with
    | error m => simp only [h1] at h; exact Except.noConfusion h
    | ok r1 =>
      obtain ⟨ll, ee1, cc1⟩ := r1
      simp only [h1] at h
      cases h2 : emitAST r ee1 cc1 with
      | error m => simp only [h2] at h; exact Except.noConfusion h
      | ok r2 =>
        obtain ⟨rl, ee2, cc2⟩ := r2
        simp only [h2, Except.ok.injEq, Prod.mk.injEq] at h
        obtain ⟨-, rfl, -⟩ := h
        exact envOk_emitAST r ee1 cc1 rl ee2 cc2
          (envOk_emitAST l env c ll ee1 cc1 henv h1) h2
  | add l r =>
    unfold emitAST at h
    cases h1 : emitAST l env c with
    | error m => simp only [h1] at h; exact Except.noConfusion h
    | ok r1 =>
      obtain ⟨ll, ee1, cc1⟩ := r1
      simp only [h1] at h
      cases h2 : emitAST r ee1 cc1 with
      | error m => simp only [h2] at h; exact Except.noConfusion h
      | ok r2 =>
        obtain ⟨rl, ee2, cc2⟩ := r2
        simp only [h2, Except.ok.injEq, Prod.mk.injEq] at h
        obtain ⟨-, rfl, -⟩ := h
        exact envOk_emitAST r ee1 cc1 rl ee2 cc2
          (envOk_emitAST l env c ll ee1 cc1 henv h1) h2
  | subtract l r =>
    unfold emitAST at h
    cases h1 : emitAST l env c with
    | error m => simp only [h1] at h; exact Except.noConfusion h
    | ok r1 =>
      obtain ⟨ll, ee1, cc1⟩ := r1
      simp only [h1] at h
      cases h2 : emitAST r ee1 cc1 with
      | error m => simp only [h2] at h; exact Except.noConfusion h
      | ok r2 =>
        obtain ⟨rl, ee2, cc2⟩ := r2
        simp only [h2, Except.ok.injEq, Prod.mk.injEq] at h
        obtain ⟨-, rfl, -⟩ := h
        exact envOk_emitAST r ee1 cc1 rl ee2 cc2
          (envOk_emitAST l env c ll ee1 cc1 henv h1) h2
  | multiply l r =>
    unfold emitAST at h
    cases h1 : emitAST l env c with
    | error m => simp only [h1] at h; exact Except.noConfusion h
    | ok r1 =>
      obtain ⟨ll, ee1, cc1⟩ := r1
      simp only [h1] at h
      cases h2 : emitAST r ee1 cc1 with
      | error m => simp only [h2] at h; exact Except.noConfusion h
      | ok r2 =>
        obtain ⟨rl, ee2, cc2⟩ := r2
        simp only [h2, Except.ok.injEq, Prod.mk.injEq] at h
        obtain ⟨-, rfl, -⟩ := h
        exact envOk_emitAST r ee1 cc1 rl ee2 cc2
          (envOk_emitAST l env c ll ee1 cc1 henv h1) h2
  | divide l r =>
    unfold emitAST at h
    cases h1 : emitAST l env c with
    | error m => simp only [h1] at h; exact Except.noConfusion h
    | ok r1 =>
      obtain ⟨ll, ee1, cc1⟩ := r1
      simp only [h1] at h
      cases h2 : emitAST r ee1 cc1 with
      | error m => simp only [h2] at h; exact Except.noConfusion h
      | ok r2 =>
        obtain ⟨rl, ee2, cc2⟩ := r2
        simp only [h2, Except.ok.injEq, Prod.mk.injEq] at h
        obtain ⟨-, rfl, -⟩ := h
        exact envOk_emitAST r ee1 cc1 rl ee2 cc2
          (envOk_emitAST l env c ll ee1 cc1 henv h1) h2
  | call f args =>
    cases args with
    | nil =>
      unfold emitAST at h
      simp only [Except.ok.injEq, Prod.mk.injEq] at h
      obtain ⟨-, rfl, -⟩ := h
      exact henv
    | cons a rest =>
      cases rest with
      | nil =>
        unfold emitAST at h
        cases h1 : emitAST a env c with
        | error m => simp only [h1] at h; exact Except.noConfusion h
        | ok r1 =>
          obtain ⟨ls1, ee1, cc1⟩ := r1
          simp only [h1, Except.ok.injEq, Prod.mk.injEq] at h
          obtain ⟨-, rfl, -⟩ := h
          exact envOk_emitAST a env c ls1 ee1 cc1 henv h1
      | cons b rest2 =>
        unfold emitAST at h
        split at h
        · cases h1 : emitArgs (a :: b :: rest2) 0 env c with
          | error m => simp only [h1] at h; exact Except.noConfusion h
          | ok r1 =>
            obtain ⟨ls1, ee1, cc1⟩ := r1
            simp only [h1, Except.ok.injEq, Prod.mk.injEq] at h
            obtain ⟨-, rfl, -⟩ := h
            exact envOk_emitArgs (a :: b :: rest2) 0 env c ls1 ee1 cc1 henv h1
        · exact Except.noConfusion h
  | ret t =>
    unfold emitAST at h
    cases h1 : emitAST t env c with
    | error m => simp only [h1] at h; exact Except.noConfusion h
    | ok r =>
      obtain ⟨ls1, ee1, cc1⟩ := r
      simp only [h1, Except.ok.injEq, Prod.mk.injEq] at h
      obtain ⟨-, rfl, -⟩ := h
      exact envOk_emitAST t env c ls1 ee1 cc1 henv h1
  | block stmts =>
    unfold emitAST at h
    exact envOk_emitSeq stmts env c ls e2 c2 henv h
  | ifNode cond cons alt =>
    unfold emitAST at h
    cases h1 : emitAST cond env (c + 2) with
    | error m => simp only [h1] at h; exact Except.noConfusion h
    | ok r1 =>
      obtain ⟨cl, ee1, cc1⟩ := r1
      simp only [h1] at h
      cases h2 : emitAST cons ee1 cc1 with
      | error m => simp only [h2] at h; exact Except.noConfusion h
      | ok r2 =>
        obtain ⟨tl, ee2, cc2⟩ := r2
        simp only [h2] at h
        cases h3 : emitAST alt ee2 cc2 with
        | error m => simp only [h3] at h; exact Except.noConfusion h
        | ok r3 =>
          obtain ⟨al, ee3, cc3⟩ := r3
          simp only [h3, Except.ok.injEq, Prod.mk.injEq] at h
          obtain ⟨-, rfl, -⟩ := h
          exact envOk_emitAST alt ee2 cc2 al ee3 cc3
            (envOk_emitAST cons ee1 cc1 tl ee2 cc2
              (envOk_emitAST cond env (c + 2) cl ee1 cc1 henv h1) h2) h3
  | function name params body =>
    unfold emitAST at h
    split at h
    · exact Except.noConfusion h
    · cases h1 : emitAST body (setUpEnvironment params) c with
      | error m => simp only [h1] at h; exact Except.noConfusion h
      | ok r1 =>
        obtain ⟨ls1, ee1, cc1⟩ := r1
        simp only [h1, Except.ok.injEq, Prod.mk.injEq] at h
        obtain ⟨-, rfl, -⟩ := h
        exact henv
  | var name value =>
    unfold emitAST at h
    cases h1 : emitAST value env c with
    | error m => simp only [h1] at h; exact Except.noConfusion h
    | ok r1 =>
      obtain ⟨ls1, ee1, cc1⟩ := r1
      simp only [h1, Except.ok.injEq, Prod.mk.injEq] at h
      obtain ⟨-, rfl, -⟩ := h
      have h2 := envOk_emitAST value env c ls1 ee1 cc1 henv h1
      refine ⟨?_, ?_⟩
      · intro pr hpr
        cases hpr with
        | head => have := h2.2; simp only []; omega
        | tail _ hm => exact h2.1 pr hm
      · have := h2.2
        simp only []
        omega
  | assign name value =>
    unfold emitAST at h
    cases h1 : emitAST value env c with
    | error m => simp only [h1] at h; exact Except.noConfusion h
    | ok r1 =>
      obtain ⟨ls1, ee1, cc1⟩ := r1
      simp only [h1] at h
      cases h2 : List.lookup name ee1.locals with
      | some off =>
        simp only [h2] at h
        split at h
        · exact Except.noConfusion h
        · simp only [Except.ok.injEq, Prod.mk.injEq] at h
          obtain ⟨-, rfl, -⟩ := h
          exact envOk_emitAST value env c ls1 ee1 cc1 henv h1
      | none => simp only [h2] at h; exact Except.noConfusion h
  | whileNode cond body =>
    unfold emitAST at h
    cases h1 : emitAST cond env (c + 2) with
    | error m => simp only [h1] at h; exact Except.noConfusion h
    | ok r1 =>
      obtain ⟨cl, ee1, cc1⟩ := r1
      simp only [h1] at h
      cases h2 : emitAST body ee1 cc1 with
      | error m => simp only [h2] at h; exact Except.noConfusion h
      | ok r2 =>
        obtain ⟨bl, ee2, cc2⟩ := r2
        simp only [h2, Except.ok.injEq, Prod.mk.injEq] at h
        obtain ⟨-, rfl, -⟩ := h
        exact envOk_emitAST body ee1 cc1 bl ee2 cc2
          (envOk_emitAST cond env (c + 2) cl ee1 cc1 henv h1) h2
  | main stmts =>
    unfold emitAST at h
    cases h1 : emitSeq stmts env c with
    | error m => simp only [h1] at h; exact Except.noConfusion h
    | ok r1 =>
      obtain ⟨ls1, ee1, cc1⟩ := r1
      simp only [h1, Except.ok.injEq, Prod.mk.injEq] at h
      obtain ⟨-, rfl, -⟩ := h
      exact envOk_emitSeq stmts env c ls1 ee1 cc1 henv h1
  | assert cond =>
    cases cond with
    | some t =>
      unfold emitAST at h
      cases h1 : emitAST t env c with
      | error m => simp only [h1] at h; exact Except.noConfusion h
      | ok r1 =>
        obtain ⟨ls1, ee1, cc1⟩ := r1
        simp only [h1, Except.ok.injEq, Prod.mk.injEq] at h
        obtain ⟨-, rfl, -⟩ := h
        exact envOk_emitAST t env c ls1 ee1 cc1 henv h1
    | none =>
      unfold emitAST at h
      exact Except.noConfusion h
termination_by sizeOf a

/-- `emitSeq` preserves `envOk`. -/
theorem envOk_emitSeq (l : List AST) (env : Environment) (c : Nat) (ls : List String)
    (e2 : Environment) (c2 : Nat) (henv : envOk env)
    (h : emitSeq l env c = .ok (ls, e2, c2)) : envOk e2 := by
  cases l with
  | nil =>
    unfold emitSeq at h
    simp only [Except.ok.injEq, Prod.mk.injEq] at h
    obtain ⟨-, rfl, -⟩ := h
    exact henv
  | cons s rest =>
    unfold emitSeq at h
    cases h1 : emitAST s env c with
    | error m => simp only [h1] at h; exact Except.noConfusion h
    | ok r1 =>
      obtain ⟨ls1, ee1, cc1⟩ := r1
      simp only [h1] at h
      cases h2 : emitSeq rest ee1 cc1 with
      | error m => simp only [h2] at h; exact Except.noConfusion h
      | ok r2 =>
        obtain ⟨ls2, ee2, cc2⟩ := r2
        simp only [h2, Except.ok.injEq, Prod.mk.injEq] at h
        obtain ⟨-, rfl, -⟩ := h
        exact envOk_emitSeq rest ee1 cc1 ls2 ee2 cc2
          (envOk_emitAST s env c ls1 ee1 cc1 henv h1) h2
termination_by sizeOf l

/-- `emitArgs` preserves `envOk`. -/
theorem envOk_emitArgs (l : List AST) (i : Nat) (env : Environment) (c : Nat)
    (ls : List String) (e2 : Environment) (c2 : Nat) (henv : envOk env)
    (h : emitArgs l i env c = .ok (ls, e2, c2)) : envOk e2 := by
  cases l with
  | nil =>
    unfold emitArgs at h
    simp only [Except.ok.injEq, Prod.mk.injEq] at h
    obtain ⟨-, rfl, -⟩ := h
    exact henv
  | cons a rest =>
    unfold emitArgs at h
    cases h1 : emitAST a env c with
    | error m => simp only [h1] at h; exact Except.noConfusion h
    | ok r1 =>
      obtain ⟨ls1, ee1, cc1⟩ := r1
      simp only [h1] at h
      cases h2 : emitArgs rest (i + 1) ee1 cc1 with
      | error m => simp only [h2] at h; exact Except.noConfusion h
      | ok r2 =>
        obtain ⟨ls2, ee2, cc2⟩ := r2
        simp only [h2, Except.ok.injEq, Prod.mk.injEq] at h
        obtain ⟨-, rfl, -⟩ := h
        exact envOk_emitArgs rest (i + 1) ee1 cc1 ls2 ee2 cc2
          (envOk_emitAST a env c ls1 ee1 cc1 henv h1) h2
termination_by sizeOf l

end

theorem lookup_some_mem {m : List (String × Int)} {k : String} {v : Int}
    (h : List.lookup k m = some v) : (k, v) ∈ m := by
  induction m with
  | nil => exact Option.noConfusion h
  | cons pr rest ih =>
    obtain ⟨k2, v2⟩ := pr
    rw [List.lookup] at h
    split at h
    next hkk =>
      simp only [Option.some.injEq] at h
      subst h
      have : k = k2 := by simpa using hkk
      subst this
      exact List.mem_cons_self _ _
    next => exact List.mem_cons_of_mem _ (ih h)

/-- Under `envOk` (no binding has offset 0), `Id.emit` raises
`Undefined variable` exactly when the name is absent from the environment:
the falsy `if (offset)` test collapses to a presence test. -/
theorem id_error_iff (x : String) (env : Environment) (c : Nat) (henv : envOk env) :
    emitAST (.id x) env c = .error ("Undefined variable: " ++ x) ↔
      List.lookup x env.locals = none := by
  constructor
  · intro h
    unfold emitAST at h
    cases h1 : List.lookup x env.locals with
    | none => rfl
    | some off =>
      simp only [h1] at h
      split at h
      next h0 =>
        have := henv.1 _ (lookup_some_mem h1)
        simp only [] at this
        omega
      next => exact Except.noConfusion h
  · intro h1
    unfold emitAST
    simp only [h1]

/-- The `Assign.emit` counterpart of `id_error_iff`, relative to the
environment left by emitting the assigned value. -/
theorem assign_error_iff (x : String) (value : AST) (env : Environment) (c : Nat)
    (ls : List String) (e1 : Environment) (c1 : Nat) (henv : envOk env)
    (hv : emitAST value env c = .ok (ls, e1, c1)) :
    emitAST (.assign x value) env c = .error ("Undefined variable: " ++ x) ↔
      List.lookup x e1.locals = none := by
  have he1 : envOk e1 := envOk_emitAST value env c ls e1 c1 henv hv
  constructor
  · intro h
    unfold emitAST at h
    simp only [hv] at h
    cases h1 : List.lookup x e1.locals with
    | none => rfl
    | some off =>
      simp only [h1] at h
      split at h
      next h0 =>
        have := he1.1 _ (lookup_some_mem h1)
        simp only [] at this
        omega
      next => exact Except.noConfusion h
  · intro h1
    unfold emitAST
    simp only [hv, h1]

/-- Any error produced by the 2-to-4-argument loop of `Call.emit` comes from
emitting one of the arguments. -/
theorem emitArgs_error_mem :
    ∀ (args : List AST) (i : Nat) (env : Environment) (c : Nat) (msg : String),
      emitArgs args i env c = .error msg →
      ∃ a, a ∈ args ∧ ∃ env2 c2, emitAST a env2 c2 = .error msg := by
  intro args
  induction args with
  | nil =>
    intro i env c msg h
    unfold emitArgs at h
    exact Except.noConfusion h
  | cons a rest ih =>
    intro i env c msg h
    unfold emitArgs at h
    cases h1 : emitAST a env c with
    | error m =>
      simp only [h1, Except.error.injEq] at h
      subst h
      exact ⟨a, List.mem_cons_self _ _, env, c, h1⟩
    | ok r1 =>
      obtain ⟨ls1, ee1, cc1⟩ := r1
      simp only [h1] at h
      cases h2 : emitArgs rest (i + 1) ee1 cc1 with
      | error m =>
        simp only [h2, Except.error.injEq] at h
        subst h
        obtain ⟨a2, hmem, env2, c2, h3⟩ := ih (i + 1) ee1 cc1 _ h2
        exact ⟨a2, List.mem_cons_of_mem _ hmem, env2, c2, h3⟩
      | ok r2 =>
        obtain ⟨ls2, ee2, cc2⟩ := r2
        simp only [h2] at h
        exact Except.noConfusion h

theorem lookup_bindParams_notmem :
    ∀ (ps : List String) (i : Nat) (m : List (String × Int)) (x : String),
      x ∉ ps → List.lookup x (bindParams ps i m) = List.lookup x m := by
  intro ps
  induction ps with
  | nil => intro i m x _; rfl
  | cons p rest ih =>
    intro i m x hx
    unfold bindParams
    rw [ih (i + 1) _ x (fun hmem => hx (List.mem_cons_of_mem _ hmem))]
    unfold mapSet
    rw [List.lookup]
    split
    next hkk =>
      exact absurd (by simpa using hkk : x = p) (fun hxp => hx (hxp ▸ List.mem_cons_self _ _))
    next => rfl

/-- With distinct parameter names, `setUpEnvironment` binds the i-th
parameter at offset `4 * i - 16`. -/
theorem lookup_bindParams_get :
    ∀ (ps : List String) (k : Nat) (m : List (String × Int)) (i : Nat) (h : i < ps.length),
      ps.Nodup →
      List.lookup (ps.get ⟨i, h⟩) (bindParams ps k m) = some (4 * ((k : Int) + i) - 16) := by
  intro ps
  induction ps with
  | nil => intro k m i h _; exact absurd h (by simp)
  | cons p rest ih =>
    intro k m i h hnd
    rw [List.nodup_cons] at hnd
    cases i with
    | zero =>
      unfold bindParams
      rw [lookup_bindParams_notmem rest (k + 1) _ _ (by simpa using hnd.1)]
      unfold mapSet
      rw [List.lookup]
      simp only [List.get, beq_self_eq_true]
      norm_num
    | succ j =>
      unfold bindParams
      have := ih (k + 1) (mapSet m p (4 * (k : Int) - 16)) j (by simpa using Nat.lt_of_succ_lt_succ h) hnd.2
      simp only [List.get] at this ⊢
      rw [this]
      push_cast
      ring_nf

/-! ## The `equals` methods, with object identity

JS `==` between two objects is reference equality.  `Assert.equals` compares
`this.condition == other.condition` and `Main.equals` compares
`this.statements == other.statements`, so unlike every other node class they
compare a child object / the statements array by reference, not
structurally.  To express this, `HNode` mirrors the node classes with every
node carrying the identity `nid` of its allocation (two nodes built by
separate `new` calls have distinct `nid`s, and JS reference equality is then
`nid` equality), and `Main` additionally carrying the identity `aid` of its
statements array. -/

inductive HNode where
  | number (nid : Nat) (value : Int)
  | idNode (nid : Nat) (value : String)
  | notNode (nid : Nat) (term : HNode)
  | equal (nid : Nat) (left right : HNode)
  | notEqual (nid : Nat) (left right : HNode)
  | add (nid : Nat) (left right : HNode)
  | subtract (nid : Nat) (left right : HNode)
  | multiply (nid : Nat) (left right : HNode)
  | divide (nid : Nat) (left right : HNode)
  | call (nid : Nat) (callee : String) (args : List HNode)
  | ret (nid : Nat) (term : HNode)
  | block (nid : Nat) (statements : List HNode)
  | ifNode (nid : Nat) (conditional consequence alternative : HNode)
  | function (nid : Nat) (name : String) (parameters : List String) (body : HNode)
  | var (nid : Nat) (name : String) (value : HNode)
  | assign (nid : Nat) (name : String) (value : HNode)
  | whileNode (nid : Nat) (conditional body : HNode)
  | main (nid : Nat) (aid : Nat) (statements : List HNode)
  | assert (nid : Nat) (condition : HNode)

/-- The allocation identity of a node. -/
def HNode.nodeId : HNode → Nat
  | .number nid _ => nid
  | .idNode nid _ => nid
  | .notNode nid _ => nid
  | .equal nid _ _ => nid
  | .notEqual nid _ _ => nid
  | .add nid _ _ => nid
  | .subtract nid _ _ => nid
  | .multiply nid _ _ => nid
  | .divide nid _ _ => nid
  | .call nid _ _ => nid
  | .ret nid _ => nid
  | .block nid _ => nid
  | .ifNode nid _ _ _ => nid
  | .function nid _ _ _ => nid
  | .var nid _ _ => nid
  | .assign nid _ _ => nid
  | .whileNode nid _ _ => nid
  | .main nid _ _ => nid
  | .assert nid _ => nid

mutual

/-- The `equals(other)` methods, in source order: an `instanceof` test (the
constructor match) followed by the comparisons the source performs.  Note
`Assert.equals` uses `this.condition == other.condition` (reference
equality, i.e. `nodeId` equality) and `Main.equals` uses
`this.statements == other.statements` (array reference equality, i.e. `aid`
equality); all other classes call `.equals` / `===` on the payloads. -/
def HNode.equals : HNode → HNode → Bool
  | .number _ v, .number _ v2 => v == v2
  | .idNode _ s, .idNode _ s2 => s == s2
  | .notNode _ t, .notNode _ t2 => t.equals t2
  | .equal _ l r, .equal _ l2 r2 => l.equals l2 && r.equals r2
  | .notEqual _ l r, .notEqual _ l2 r2 => l.equals l2 && r.equals r2
  | .add _ l r, .add _ l2 r2 => l.equals l2 && r.equals r2
  | .subtract _ l r, .subtract _ l2 r2 => l.equals l2 && r.equals r2
  | .multiply _ l r, .multiply _ l2 r2 => l.equals l2 && r.equals r2
  | .divide _ l r, .divide _ l2 r2 => l.equals l2 && r.equals r2
  | .call _ f as, .call _ f2 as2 => f == f2 && as.length == as2.length && equalsList as as2
  | .ret _ t, .ret _ t2 => t.equals t2
  | .block _ ss, .block _ ss2 => ss.length == ss2.length && equalsList ss ss2
  | .ifNode _ c t e, .ifNode _ c2 t2 e2 => c.equals c2 && t.equals t2 && e.equals e2
  | .function _ n ps b, .function _ n2 ps2 b2 =>
    n == n2 && ps.length == ps2.length && ps == ps2 && b.equals b2
  | .var _ n v, .var _ n2 v2 => n == n2 && v.equals v2
  | .assign _ n v, .assign _ n2 v2 => n == n2 && v.equals v2
  | .whileNode _ c b, .whileNode _ c2 b2 => c.equals c2 && b.equals b2
  | .main _ aid _, .main _ aid2 _ => aid == aid2
  | .assert _ c, .assert _ c2 => c.nodeId == c2.nodeId
  | _, _ => false

/-- `(statement, i) => statement.equals(other.statements[i])`, under the
guard that the lengths agree. -/
def equalsList : List HNode → List HNode → Bool
  | [], [] => true
  | a :: as, b :: bs => a.equals b && equalsList as bs
  | _, _ => false

end

mutual

/-- Modelled from the spec: "two nodes are equal iff same variant and
structurally equal payloads (deep equality on children, value equality on
scalars, ordered element-wise equality on children lists)" — structural
equality over `HNode`, ignoring every allocation identity. -/
def structuralEq : HNode → HNode → Bool
  | .number _ v, .number _ v2 => v == v2
  | .idNode _ s, .idNode _ s2 => s == s2
  | .notNode _ t, .notNode _ t2 => structuralEq t t2
  | .equal _ l r, .equal _ l2 r2 => structuralEq l l2 && structuralEq r r2
  | .notEqual _ l r, .notEqual _ l2 r2 => structuralEq l l2 && structuralEq r r2
  | .add _ l r, .add _ l2 r2 => structuralEq l l2 && structuralEq r r2
  | .subtract _ l r, .subtract _ l2 r2 => structuralEq l l2 && structuralEq r r2
  | .multiply _ l r, .multiply _ l2 r2 => structuralEq l l2 && structuralEq r r2
  | .divide _ l r, .divide _ l2 r2 => structuralEq l l2 && structuralEq r r2
  | .call _ f as, .call _ f2 as2 => f == f2 && structuralEqList as as2
  | .ret _ t, .ret _ t2 => structuralEq t t2
  | .block _ ss, .block _ ss2 => structuralEqList ss ss2
  | .ifNode _ c t e, .ifNode _ c2 t2 e2 =>
    structuralEq c c2 && structuralEq t t2 && structuralEq e e2
  | .function _ n ps b, .function _ n2 ps2 b2 => n == n2 && ps == ps2 && structuralEq b b2
  | .var _ n v, .var _ n2 v2 => n == n2 && structuralEq v v2
  | .assign _ n v, .assign _ n2 v2 => n == n2 && structuralEq v v2
  | .whileNode _ c b, .whileNode _ c2 b2 => structuralEq c c2 && structuralEq b b2
  | .main _ _ ss, .main _ _ ss2 => structuralEqList ss ss2
  | .assert _ c, .assert _ c2 => structuralEq c c2
  | _, _ => false

/-- Ordered element-wise structural equality of children lists. -/
def structuralEqList : List HNode → List HNode → Bool
  | [], [] => true
  | a :: as, b :: bs => structuralEq a b && structuralEqList as bs
  | _, _ => false

end

/-! ## The claims -/

/-- C1: for every binary expression, code generation evaluates the left
operand, pushes `{r0, ip}`, evaluates the right operand, pops `{r1, ip}`,
and computes with the claimed operand order — Subtract emits
`sub r0, r1, r0`, Divide `udiv r0, r1, r0`, Multiply `mul r0, r1, r0`, Add
`add r0, r0, r1`; and compiling `function f(a,b) { return a - b; }` loads
`a` from `[fp, #-16]`, pushes, loads `b` from `[fp, #-12]`, pops, and emits
`sub r0, r1, r0`. -/
theorem binary_operand_order :
    (∀ (l r : AST) (env : Environment) (c : Nat) (ll : List String) (e1 : Environment)
      (c1 : Nat) (rl : List String) (e2 : Environment) (c2 : Nat),
      emitAST l env c = .ok (ll, e1, c1) → emitAST r e1 c1 = .ok (rl, e2, c2) →
      emitAST (.subtract l r) env c =
        .ok (ll ++ ["  push {r0, ip}"] ++ rl ++ ["  pop {r1, ip}", "  sub r0, r1, r0"], e2, c2) ∧
      emitAST (.divide l r) env c =
        .ok (ll ++ ["  push {r0, ip}"] ++ rl ++ ["  pop {r1, ip}", "  udiv r0, r1, r0"], e2, c2) ∧
      emitAST (.multiply l r) env c =
        .ok (ll ++ ["  push {r0, ip}"] ++ rl ++ ["  pop {r1, ip}", "  mul r0, r1, r0"], e2, c2) ∧
      emitAST (.add l r) env c =
        .ok (ll ++ ["push {r0, ip}"] ++ rl ++ ["pop {r1, ip}", "add r0, r0, r1"], e2, c2)) ∧
    emitAST (.function "f" ["a", "b"] (.block [.ret (.subtract (.id "a") (.id "b"))])) ⟨[], 0⟩ 0 =
      .ok (["", ".global f", "f:", " push {fp, lr}", " mov fp, sp", " push {r0, r1, r2, r3}",
            " ldr r0, [fp, #-16]", "  push {r0, ip}", " ldr r0, [fp, #-12]", "  pop {r1, ip}",
            "  sub r0, r1, r0", " mov sp, fp", " pop {fp, pc}",
            " mov sp, fp", " mov r0, #0", " pop {fp, pc}"], ⟨[], 0⟩, 0) := by
  constructor
  · intro l r env c ll e1 c1 rl e2 c2 hl hr
    refine ⟨?_, ?_, ?_, ?_⟩ <;> (unfold emitAST; simp only [hl, hr])
  · rfl

/-- Witness for C1 at concrete operands `1` and `2`. -/
theorem binary_operand_order_witness :
    emitAST (.subtract (.number 1) (.number 2)) ⟨[], 0⟩ 0 =
      .ok (["  ldr r0, =1", "  push {r0, ip}", "  ldr r0, =2", "  pop {r1, ip}",
            "  sub r0, r1, r0"], ⟨[], 0⟩, 0) ∧
    emitAST (.add (.number 1) (.number 2)) ⟨[], 0⟩ 0 =
      .ok (["  ldr r0, =1", "push {r0, ip}", "  ldr r0, =2", "pop {r1, ip}",
            "add r0, r0, r1"], ⟨[], 0⟩, 0) := by
  have h := binary_operand_order.1 (.number 1) (.number 2) ⟨[], 0⟩ 0 ["  ldr r0, =1"] ⟨[], 0⟩ 0
    ["  ldr r0, =2"] ⟨[], 0⟩ 0 (by rfl) (by rfl)
  exact ⟨h.1, h.2.2.2⟩

/-- C2 (code-bug evidence): the program `1-2;` parses to
`Block [Subtract (Number 1) (Number 2)]`, but inserting the block comment
`/*a*/` after the token `1` and the comment `/*b*/` after the token `2`
yields a source string that parses to `Block [Number 1]`: the greedy
block-comment regex `[/][*].*[*][/]` consumes from the first comment opener
through the last comment closer, swallowing the minus sign and the `2` that
sit between the two comments, so comment insertion changes the AST. -/
theorem comment_insertion_changes_ast :
    parser.parseStringToCompletion "1-2;" =
      .ok (.block [.subtract (.number 1) (.number 2)]) ∧
    parser.parseStringToCompletion "1/*a*/-2/*b*/;" = .ok (.block [.number 1]) :=
  ⟨rfl, rfl⟩

/-- C3: every environment reachable during code generation satisfies
`envOk` — `setUpEnvironment` establishes it whenever the arity check passed
(parameter offsets `4*i-16`, `i ≤ 3`, are negative) and emission preserves
it — and under `envOk` no name maps to offset 0, so the falsy-value lookups
of `Id.emit` and `Assign.emit` throw `Undefined variable` exactly when the
name is absent, the offset-0 misclassification branch being unreachable. -/
theorem offset_zero_unreachable :
    (∀ params : List String, params.length ≤ 4 → envOk (setUpEnvironment params)) ∧
    (∀ (a : AST) (env : Environment) (c : Nat) (ls : List String) (e2 : Environment)
      (c2 : Nat), envOk env → emitAST a env c = .ok (ls, e2, c2) → envOk e2) ∧
    (∀ (x : String) (env : Environment) (c : Nat), envOk env →
      (emitAST (.id x) env c = .error ("Undefined variable: " ++ x) ↔
        List.lookup x env.locals = none)) ∧
    (∀ (x : String) (value : AST) (env : Environment) (c : Nat) (ls : List String)
      (e1 : Environment) (c1 : Nat), envOk env → emitAST value env c = .ok (ls, e1, c1) →
      (emitAST (.assign x value) env c = .error ("Undefined variable: " ++ x) ↔
        List.lookup x e1.locals = none)) :=
  ⟨fun params h => envOk_setUpEnvironment params h,
   fun a env c ls e2 c2 henv h => envOk_emitAST a env c ls e2 c2 henv h,
   fun x env c henv => id_error_iff x env c henv,
   fun x v env c ls e1 c1 henv hv => assign_error_iff x v env c ls e1 c1 henv hv⟩

/-- Witness for C3 at a concrete environment and name. -/
theorem offset_zero_unreachable_witness :
    envOk (setUpEnvironment ["a", "b"]) ∧
    (emitAST (.id "x") ⟨[("y", -24)], -28⟩ 0 = .error ("Undefined variable: " ++ "x") ↔
      List.lookup "x" (Environment.mk [("y", -24)] (-28)).locals = none) :=
  ⟨offset_zero_unreachable.1 ["a", "b"] (by decide),
   offset_zero_unreachable.2.2.1 "x" ⟨[("y", -24)], -28⟩ 0 (by unfold envOk; decide)⟩

/-- C4: `setUpEnvironment` creates a fresh environment binding parameter `i`
at offset `4*i - 16` with `nextLocalOffset = -20`; `Var.emit` binds its name
at `nextLocalOffset - 4` and decrements `nextLocalOffset` by 8; and in
`function g() { var x = 5; x = x * 2; return x; }` the local `x` lives at
offset `-24` and the return reads `[fp, #-24]`. -/
theorem environment_layout :
    (∀ params : List String, (setUpEnvironment params).nextLocalOffset = -20) ∧
    (∀ (params : List String) (i : Nat) (h : i < params.length), params.Nodup →
      List.lookup (params.get ⟨i, h⟩) (setUpEnvironment params).locals =
        some (4 * (i : Int) - 16)) ∧
    (∀ (name : String) (value : AST) (env : Environment) (c : Nat) (ls : List String)
      (e1 : Environment) (c1 : Nat), emitAST value env c = .ok (ls, e1, c1) →
      emitAST (.var name value) env c =
        .ok (ls ++ [" push {r0, ip}"],
             ⟨mapSet e1.locals name (e1.nextLocalOffset - 4), e1.nextLocalOffset - 8⟩, c1)) ∧
    emitAST (.function "g" [] (.block [.var "x" (.number 5),
        .assign "x" (.multiply (.id "x") (.number 2)), .ret (.id "x")])) ⟨[], 0⟩ 0 =
      .ok (["", ".global g", "g:", " push {fp, lr}", " mov fp, sp", " push {r0, r1, r2, r3}",
            "  ldr r0, =5", " push {r0, ip}", " ldr r0, [fp, #-24]", "  push {r0, ip}",
            "  ldr r0, =2", "  pop {r1, ip}", "  mul r0, r1, r0", " str r0, [fp, #-24]",
            " ldr r0, [fp, #-24]", " mov sp, fp", " pop {fp, pc}",
            " mov sp, fp", " mov r0, #0", " pop {fp, pc}"], ⟨[], 0⟩, 0) := by
  refine ⟨fun params => rfl, ?_, ?_, ?_⟩
  · intro params i h hnd
    have := lookup_bindParams_get params 0 [] i h hnd
    simpa using this
  · intro name value env c ls e1 c1 hv
    unfold emitAST
    simp only [hv]
  · rfl

/-- Witness for C4: the parameters of `f(a,b)` sit at `-16` and `-12`, and a
`var` after a successful initializer binds at `nextLocalOffset - 4`. -/
theorem environment_layout_witness :
    List.lookup (["a", "b"].get ⟨1, by decide⟩) (setUpEnvironment ["a", "b"]).locals =
      some (4 * ((1 : Nat) : Int) - 16) ∧
    emitAST (.var "x" (.number 5)) ⟨[], -20⟩ 0 =
      .ok (["  ldr r0, =5", " push {r0, ip}"], ⟨[("x", -24)], -28⟩, 0) := by
  constructor
  · exact environment_layout.2.1 ["a", "b"] 1 (by decide) (by decide)
  · have h := environment_layout.2.2.1 "x" (.number 5) ⟨[], -20⟩ 0 ["  ldr r0, =5"]
      ⟨[], -20⟩ 0 (by rfl)
    exact h

/-- C5: emitting a `Call` with more than 4 arguments fails with
`More than 4 arguments are not supported` without emitting anything for the
call (the error is returned for every argument list, whatever emitting the
arguments would do), emitting a `Function` with more than 4 parameters fails
with `More than 4 params is not supported` for every body, and a call with
0 to 4 arguments never produces this error itself: any error of such a call
is an error produced by emitting one of its arguments. -/
theorem arity_errors :
    (∀ (f : String) (args : List AST) (env : Environment) (c : Nat), 4 < args.length →
      emitAST (.call f args) env c = .error ("More than 4 arguments are not supported")) ∧
    (∀ (name : String) (params : List String) (body : AST) (env : Environment) (c : Nat),
      4 < params.length →
      emitAST (.function name params body) env c =
        .error ("More than 4 params is not supported")) ∧
    (∀ (f : String) (args : List AST) (env : Environment) (c : Nat) (msg : String),
      args.length ≤ 4 → emitAST (.call f args) env c = .error msg →
      ∃ a, a ∈ args ∧ ∃ env2 c2, emitAST a env2 c2 = .error msg) := by
  refine ⟨?_, ?_, ?_⟩
  · intro f args env c hlen
    match args with
    | [] => simp at hlen
    | [a] => simp at hlen
    | a :: b :: rest =>
      unfold emitAST
      rw [if_neg (by omega)]
  · intro name params body env c hlen
    unfold emitAST
    rw [if_pos (by omega)]
  · intro f args env c msg hlen h
    match args with
    | [] =>
      unfold emitAST at h
      exact Except.noConfusion h
    | [a] =>
      unfold emitAST at h
      cases h1 : emitAST a env c with
      | error m =>
        simp only [h1, Except.error.injEq] at h
        subst h
        exact ⟨a, List.mem_cons_self _ _, env, c, h1⟩
      | ok r1 =>
        obtain ⟨ls1, ee1, cc1⟩ := r1
        simp only [h1] at h
        exact Except.noConfusion h
    | a :: b :: rest =>
      unfold emitAST at h
      rw [if_pos hlen] at h
      cases h1 : emitArgs (a :: b :: rest) 0 env c with
      | error m =>
        simp only [h1, Except.error.injEq] at h
        subst h
        exact emitArgs_error_mem (a :: b :: rest) 0 env c _ h1
      | ok r1 =>
        obtain ⟨ls1, ee1, cc1⟩ := r1
        simp only [h1] at h
        exact Except.noConfusion h

/-- Witness for C5: a 5-argument call and a 5-parameter function fail with
the arity messages, and the only error of a 1-argument call is the one its
argument produced. -/
theorem arity_errors_witness :
    emitAST (.call "f" [.number 1, .number 2, .number 3, .number 4, .number 5]) ⟨[], 0⟩ 0 =
      .error ("More than 4 arguments are not supported") ∧
    emitAST (.function "g" ["a", "b", "c", "d", "e"] (.block [])) ⟨[], 0⟩ 0 =
      .error ("More than 4 params is not supported") ∧
    (∃ a, a ∈ [AST.id "x"] ∧ ∃ env2 c2,
      emitAST a env2 c2 = .error ("Undefined variable: " ++ "x")) :=
  ⟨arity_errors.1 "f" [.number 1, .number 2, .number 3, .number 4, .number 5] ⟨[], 0⟩ 0
     (by decide),
   arity_errors.2.1 "g" ["a", "b", "c", "d", "e"] (.block []) ⟨[], 0⟩ 0 (by decide),
   arity_errors.2.2 "f" [.id "x"] ⟨[], 0⟩ 0 ("Undefined variable: " ++ "x") (by decide)
     (by rfl)⟩

/-- C6 (code-bug evidence): two separately allocated but structurally equal
`Assert` nodes — `new Assert(new Number 7)` twice, here with the four
distinct allocation identities 0..3 — are not `equals`, because
`Assert.equals` compares the conditions with `==` (object reference
equality), while the spec's structural equality holds for them and every
other node class (e.g. `Not`) does compare its child deeply. -/
theorem assert_equals_by_reference :
    HNode.equals (.assert 0 (.number 1 7)) (.assert 2 (.number 3 7)) = false ∧
    structuralEq (.assert 0 (.number 1 7)) (.assert 2 (.number 3 7)) = true ∧
    HNode.equals (.notNode 4 (.number 5 7)) (.notNode 6 (.number 7 7)) = true :=
  ⟨rfl, rfl, rfl⟩

/-- C7: `parseStringToCompletion` starts at index 0 and fails fatally in
exactly two cases — a miss gives `Parse error at index 0`, and a success
whose cursor is not at the end of the input gives a parse error naming the
index where consumption stopped; otherwise it returns the parsed value. -/
theorem parse_to_completion_cases :
    ∀ (T : Type) (p : Parser T) (s : String),
      (p.parse ⟨s.data, 0⟩ = none →
        p.parseStringToCompletion s = .error ("Parse error at index 0")) ∧
      (∀ (v : T) (out : Source), p.parse ⟨s.data, 0⟩ = some (v, out) → out.string = s.data →
        (out.index ≠ s.length →
          p.parseStringToCompletion s =
            .error ("Parse error at index " ++ toString out.index)) ∧
        (out.index = s.length → p.parseStringToCompletion s = .ok v)) := by
  intro T p s
  constructor
  · intro h
    unfold Parser.parseStringToCompletion
    simp only [h]
  · intro v out h hstr
    have hlen : out.string.length = s.length := by rw [hstr]; rfl
    constructor
    · intro hne
      unfold Parser.parseStringToCompletion
      simp only [h]
      rw [if_pos (by omega)]
    · intro heq
      unfold Parser.parseStringToCompletion
      simp only [h]
      rw [if_neg (by omega)]

/-- Witness for C7: a missing parse reports index 0, a partial parse reports
the index where it stopped, a complete parse returns the value. -/
theorem parse_to_completion_cases_witness :
    whitespaceP.parse ⟨"x".data, 0⟩ = none ∧
    Parser.parseStringToCompletion whitespaceP "x" = .error ("Parse error at index 0") ∧
    Parser.parseStringToCompletion NUMBER "1x" = .error ("Parse error at index " ++ toString 1) ∧
    Parser.parseStringToCompletion NUMBER "1" = .ok (AST.number 1) := by
  refine ⟨rfl, (parse_to_completion_cases String whitespaceP "x").1 rfl, ?_, ?_⟩
  · exact ((parse_to_completion_cases AST NUMBER "1x").2 (AST.number 1) ⟨"1x".data, 1⟩
      rfl rfl).1 (by decide)
  · exact ((parse_to_completion_cases AST NUMBER "1").2 (AST.number 1) ⟨"1".data, 1⟩
      rfl rfl).2 rfl

/-- C8: a parsed call whose callee is `assert` is built as an `Assert` node
taking the first parsed argument (`args[0]`, which is the JS `undefined`,
i.e. `none`, when no argument was written) — never a `Call` node — whatever
the argument count; any other callee yields a `Call` with the callee name
and the ordered argument list. -/
theorem assert_intrinsic_parse :
    (∀ (callee : String) (args : List AST),
      (callee = "assert" → buildCall callee args = AST.assert args.head?) ∧
      (callee ≠ "assert" → buildCall callee args = AST.call callee args)) ∧
    parser.parseStringToCompletion "assert(1);" = .ok (.block [.assert (some (.number 1))]) ∧
    parser.parseStringToCompletion "assert();" = .ok (.block [.assert none]) ∧
    parser.parseStringToCompletion "assert(1,2);" =
      .ok (.block [.assert (some (.number 1))]) ∧
    parser.parseStringToCompletion "f(1,2);" =
      .ok (.block [.call "f" [.number 1, .number 2]]) := by
  refine ⟨?_, rfl, rfl, rfl, rfl⟩
  intro callee args
  constructor
  · intro h
    subst h
    rfl
  · intro h
    unfold buildCall
    rw [if_neg (by simpa using h)]

/-- Witness for C8 at the concrete callees `assert` and `f`. -/
theorem assert_intrinsic_parse_witness :
    buildCall "assert" [] = AST.assert none ∧
    buildCall "f" [AST.number 1] = AST.call "f" [AST.number 1] :=
  ⟨(assert_intrinsic_parse.1 "assert" []).1 rfl,
   (assert_intrinsic_parse.1 "f" [AST.number 1]).2 (by decide)⟩

/-- C9 (counterexample): `zeroOrMore` applied to a parser that succeeds
without advancing — `constant` — does not succeed: the source's
`while ((item = parser.parse(source)))` loop never terminates, modelled by
fuel exhaustion, so the claim that `zeroOrMore(p)` is total for arbitrary
`p` fails. -/
theorem zeroOrMore_constant_misses :
    (Parser.zeroOrMore (Parser.constant 0)).parse ⟨[], 0⟩ = none :=
  rfl

/-- C9 (amended): `zeroOrMore(p)` always succeeds — collecting the values of
the successive successes until a miss — for every parser `p` that strictly
advances the cursor on success (as every grammar token does); for a parser
that succeeds without consuming, such as `constant`, the loop never
terminates: it exhausts every fuel bound. -/
theorem zeroOrMore_total_for_advancing :
    (∀ (T : Type) (p : Parser T), Adv p →
      ∀ src, ∃ vs out, (Parser.zeroOrMore p).parse src = some (vs, out)) ∧
    (∀ (U : Type) (v : U) (fuel : Nat) (src : Source) (acc : List U),
      zeroOrMoreAux (Parser.constant v) fuel src acc = none) := by
  constructor
  · intro T p hp src
    exact total_zeroOrMore hp src
  · intro U v fuel
    induction fuel with
    | zero => intro src acc; rfl
    | succ f ih =>
      intro src acc
      unfold zeroOrMoreAux
      simp only [Parser.constant]
      exact ih src (acc ++ [v])

/-- Witness for C9 (amended) at the advancing parser `whitespace`. -/
theorem zeroOrMore_total_for_advancing_witness :
    ∃ vs out, (Parser.zeroOrMore whitespaceP).parse ⟨" a".data, 0⟩ = some (vs, out) :=
  zeroOrMore_total_for_advancing.1 String whitespaceP adv_whitespaceP ⟨" a".data, 0⟩

/-- C10: the exported top-level `parser` returns a successful parse on every
input (possibly an empty `Block` consuming nothing, as on the empty string),
so the driver's null-result branch is unreachable for it, and every fatal
error it raises comes from the end-of-input check, reporting the index where
statement parsing stopped. -/
theorem top_parser_never_misses :
    (∀ s : String, ∃ v out, parser.parse ⟨s.data, 0⟩ = some (v, out) ∧ out.string = s.data ∧
      parser.parseStringToCompletion s =
        (if out.index = s.data.length then .ok v
         else .error ("Parse error at index " ++ toString out.index))) ∧
    parser.parse ⟨[], 0⟩ = some (.block [], ⟨[], 0⟩) := by
  constructor
  · intro s
    obtain ⟨v, out, h, hstr⟩ := parser_parse_some ⟨s.data, 0⟩
    refine ⟨v, out, h, hstr, ?_⟩
    unfold Parser.parseStringToCompletion
    simp only [h]
    rw [hstr]
    by_cases hi : out.index = s.data.length
    · simp [hi]
    · simp [hi]
  · rfl
